import Mathlib

/-!
# Verification of the local file indexing and multi-source search engine

This file gives a shallow embedding in Lean 4 of the indexing/search core of
`That_Search_Tool.py` and proves (or refutes) the frozen specification claims
about it.

Embedded here, each translated from the Python source:

* the path-canonicalization helpers (`ntpath.normpath`, `ntpath.normcase`,
  `str.strip`, SHA-1) behind `index_db_path`;
* the query tokenizer (`re.findall('"[^"]+"|\\S+', q)`), the `fnmatch` glob
  matcher used by `CrawlProvider._match`, and the SQL `LIKE` matcher used by
  `IndexedProvider.search`;
* the `SearchWorker.run` fan-in merge (dedup by canonical path, result cap);
* the `IndexWorker.run` scan pass (upsert with SQLite change counting, batch
  commits, cooperative cancellation, stale-row pruning, last-scan stamping).

Python floats (`time.time()`, `st_mtime`) are modelled as rationals; the only
operations the code performs on them (truncation to `int`, equality, storage)
are exact, so no floating-point rounding is observable in any claim.
-/

namespace TST

/-! ## Python string helpers (ASCII fragment)

The paths and queries in every claim are ASCII; `str.lower`/`str.strip` are
modelled on their ASCII fragment, where they agree with CPython. -/

/-- ASCII `str.lower` on one character. -/
def asciiLowerChar (c : Char) : Char :=
  if 'A' ≤ c ∧ c ≤ 'Z' then Char.ofNat (c.toNat + 32) else c

/-- ASCII `str.lower`. -/
def asciiLower (s : String) : String := ⟨s.data.map asciiLowerChar⟩

/-- The ASCII whitespace characters stripped by `str.strip()` /
matched by `\s`: space, tab, newline, carriage return, vertical tab, form feed. -/
def pyIsSpace (c : Char) : Bool :=
  c == ' ' || c == '\t' || c == '\n' || c == '\r' || c.toNat == 11 || c.toNat == 12

/-- Python `str.strip()` (no argument: strip whitespace from both ends). -/
def pyStrip (s : String) : String :=
  ⟨((s.data.dropWhile pyIsSpace).reverse.dropWhile pyIsSpace).reverse⟩

/-- Python `str.strip(chars)`: strip every leading/trailing char in `chars`. -/
def pyStripChars (chars : List Char) (s : String) : String :=
  ⟨((s.data.dropWhile (chars.contains ·)).reverse.dropWhile (chars.contains ·)).reverse⟩

/-- Python `str.rstrip(chars)`. -/
def pyRstripChars (chars : List Char) (s : String) : String :=
  ⟨((s.data.reverse.dropWhile (chars.contains ·)).reverse)⟩

/-- `s.replace(altsep, sep)`, i.e. `'/' -> '\\'` (`ntpath`). -/
def winSlashes (s : String) : String :=
  ⟨s.data.map (fun c => if c = '/' then '\\' else c)⟩

/-- `ntpath.normcase`: `s.replace('/', '\\').lower()`. -/
def normcase (s : String) : String := asciiLower (winSlashes s)

/-- Python `str.startswith` (and `String.startsWith`), on the char list. -/
def strStartsWith (s pre : String) : Bool := pre.data.isPrefixOf s.data

/-- Python `str.endswith` (and `String.endsWith`), on the char list. -/
def strEndsWith (s post : String) : Bool := post.data.isSuffixOf s.data

/-- Python `str.split(sep)` for a one-character separator
(also `String.splitOn` for such separators): `""` yields `[""]`. -/
def splitOnChar (sep : Char) : List Char → List (List Char)
  | [] => [[]]
  | c :: rest =>
    let r := splitOnChar sep rest
    if c = sep then [] :: r
    else
      match r with
      | h :: t => (c :: h) :: t
      | [] => [[c]]

/-- Index of the first occurrence of `c` in `cs` at position `≥ start`
(`str.find(c, start)` when it succeeds). -/
def findFrom (cs : List Char) (c : Char) (start : Nat) : Option Nat :=
  match (cs.drop start).findIdx? (· = c) with
  | none => none
  | some i => some (start + i)

/-! ## `ntpath.splitdrive` / `ntpath.normpath` (CPython 3.11) -/

/-- ASCII `str.upper` on one character (for `splitdrive`'s prefix test). -/
def asciiUpperChar (c : Char) : Char :=
  if 'a' ≤ c ∧ c ≤ 'z' then Char.ofNat (c.toNat - 32) else c

/-- `ntpath.splitdrive`: split a Windows path into `(drive-or-UNC, rest)`;
a `\\?\UNC\` prefix shifts the share scan to start at index 8. -/
def splitdrive (p : String) : String × String :=
  let cs := p.data
  if cs.length ≥ 2 then
    let n := (winSlashes p).data
    if n.take 2 = ['\\', '\\'] ∧ n.get? 2 ≠ some '\\' then
      -- UNC path, e.g. \\server\share or \\?\UNC\server\share
      let start := if (n.take 8).map asciiUpperChar = "\\\\?\\UNC\\".data then 8 else 2
      match findFrom n '\\' start with
      | none => ("", p)
      | some index =>
        match findFrom n '\\' (index + 1) with
        | some index2 =>
          if index2 = index + 1 then ("", p)
          else (⟨cs.take index2⟩, ⟨cs.drop index2⟩)
        | none => (p, "")
    else if n.get? 1 = some ':' then (⟨cs.take 2⟩, ⟨cs.drop 2⟩)
    else ("", p)
  else ("", p)

/-- The component-normalization loop of `ntpath.normpath`, as a fold:
drop `''`/`'.'`, resolve `'..'` against the accumulator (`acc` holds the
already-kept components in reverse). `rooted` is `prefix.endswith(sep)`. -/
def normPathComps (rooted : Bool) : List String → List String → List String
  | [], acc => acc.reverse
  | c :: rest, acc =>
    if c = "" ∨ c = "." then normPathComps rooted rest acc
    else if c = ".." then
      match acc with
      | a :: acc' =>
        if a = ".." then normPathComps rooted rest (c :: a :: acc')
        else normPathComps rooted rest acc'
      | [] =>
        if rooted then normPathComps rooted rest []
        else normPathComps rooted rest [c]
    else normPathComps rooted rest (c :: acc)

/-- `ntpath.normpath` (CPython 3.11): collapse separators and `.`/`..`. -/
def normpath (path : String) : String :=
  if strStartsWith path "\\\\.\\" ∨ strStartsWith path "\\\\?\\" then path
  else
    let p := winSlashes path
    let (drv, rest) := splitdrive p
    let (pre, rest) :=
      if strStartsWith rest "\\" then (drv ++ "\\", (⟨rest.data.dropWhile (· = '\\')⟩ : String))
      else (drv, rest)
    let comps := normPathComps (strEndsWith pre "\\")
      ((splitOnChar '\\' rest.data).map (fun l => (⟨l⟩ : String))) []
    if pre = "" ∧ comps = [] then "."
    else pre ++ String.intercalate "\\" comps

/-! ## SHA-1 (`hashlib.sha1`), over byte lists, words as `Nat mod 2^32` -/

/-- Truncate to a 32-bit word. -/
def w32 (x : Nat) : Nat := x % 4294967296

/-- 32-bit rotate left by `n`. -/
def rotl (n x : Nat) : Nat := Nat.lor (w32 (x <<< n)) (w32 x >>> (32 - n))

/-- 64-bit big-endian byte encoding (for the SHA-1 length field). -/
def be64 (n : Nat) : List Nat :=
  [n >>> 56, n >>> 48, n >>> 40, n >>> 32, n >>> 24, n >>> 16, n >>> 8, n].map (· % 256)

/-- SHA-1 padding: `0x80`, zeros to 56 mod 64, then the bit length. -/
def sha1Pad (msg : List Nat) : List Nat :=
  let L := msg.length
  let padLen := (55 + 64 - L % 64) % 64
  msg ++ [128] ++ List.replicate padLen 0 ++ be64 (8 * L)

/-- Big-endian 32-bit word from four bytes. -/
def beWord (a b c d : Nat) : Nat := ((a * 256 + b) * 256 + c) * 256 + d

/-- Group a byte list into big-endian 32-bit words. -/
def toWords : List Nat → List Nat
  | a :: b :: c :: d :: rest => beWord a b c d :: toWords rest
  | _ => []

/-- Split a byte list into 64-byte chunks (fuelled by the list length, which
suffices: every step drops at least one element). -/
def chunks64Go : Nat → List Nat → List (List Nat)
  | _, [] => []
  | 0, _ :: _ => []
  | fuel + 1, a :: rest => ((a :: rest).take 64) :: chunks64Go fuel ((a :: rest).drop 64)

def chunks64 (l : List Nat) : List (List Nat) := chunks64Go l.length l

/-- Extend 16 message words to the 80 SHA-1 schedule words. -/
def sha1Extend (ws : Array Nat) : Array Nat :=
  (List.range 64).foldl
    (fun arr i =>
      let t := i + 16
      let x1 := Nat.xor (arr.getD (t - 3) 0) (arr.getD (t - 8) 0)
      let x2 := Nat.xor (arr.getD (t - 14) 0) (arr.getD (t - 16) 0)
      arr.push (rotl 1 (Nat.xor x1 x2)))
    ws

/-- SHA-1 round function. -/
def sha1F (t b c d : Nat) : Nat :=
  if t < 20 then Nat.lor (Nat.land b c) (Nat.land (Nat.xor b 4294967295) d)
  else if t < 40 then Nat.xor (Nat.xor b c) d
  else if t < 60 then Nat.lor (Nat.lor (Nat.land b c) (Nat.land b d)) (Nat.land c d)
  else Nat.xor (Nat.xor b c) d

/-- SHA-1 round constants. -/
def sha1K (t : Nat) : Nat :=
  if t < 20 then 1518500249
  else if t < 40 then 1859775393
  else if t < 60 then 2400959708
  else 3395469782

/-- SHA-1 state: five 32-bit words. -/
structure Sha1St where
  h0 : Nat
  h1 : Nat
  h2 : Nat
  h3 : Nat
  h4 : Nat

/-- Compress one 64-byte block into the state. -/
def sha1Block (st : Sha1St) (block : List Nat) : Sha1St :=
  let ws := sha1Extend (Array.mk (toWords block))
  let fin := (List.range 80).foldl
    (fun (s : Nat × Nat × Nat × Nat × Nat) t =>
      let (a, b, c, d, e) := s
      let temp := w32 (rotl 5 a + sha1F t b c d + e + sha1K t + ws.getD t 0)
      (temp, a, rotl 30 b, c, d))
    (st.h0, st.h1, st.h2, st.h3, st.h4)
  let (a, b, c, d, e) := fin
  ⟨w32 (st.h0 + a), w32 (st.h1 + b), w32 (st.h2 + c), w32 (st.h3 + d), w32 (st.h4 + e)⟩

/-- Lower-case hex digit. -/
def hexChar (n : Nat) : Char :=
  if n < 10 then Char.ofNat (48 + n) else Char.ofNat (87 + n)

/-- Eight hex digits of a 32-bit word (big-endian digit order). -/
def hexWord (w : Nat) : List Char :=
  (List.range 8).map (fun i => hexChar ((w >>> (4 * (7 - i))) % 16))

/-- `hashlib.sha1(bytes).hexdigest()`. -/
def sha1Hex (msg : List Nat) : String :=
  let st := (chunks64 (sha1Pad msg)).foldl sha1Block
    ⟨1732584193, 4023233417, 2562383102, 271733878, 3285377520⟩
  ⟨hexWord st.h0 ++ hexWord st.h1 ++ hexWord st.h2 ++ hexWord st.h3 ++ hexWord st.h4⟩

/-- `str.encode('utf-8', 'ignore')` (Lean strings hold no lone surrogates,
so the `ignore` handler never fires). -/
def utf8Bytes (s : String) : List Nat := s.toUTF8.toList.map (·.toNat)

/-! ## `index_db_path` -/

/-- `os.path.join(a, b)` for the join steps `index_db_path` performs: every
right operand is a relative, drive-less, separator-free component
(`"PartSearch"`, `"index"`, a hex digest, `"index_db.sqlite"`), for which
`ntpath.join` appends with a `'\\'` unless `a` already ends in a separator. -/
def winJoin (a b : String) : String :=
  if a = "" ∨ strEndsWith a "\\" ∨ strEndsWith a "/" then a ++ b else a ++ "\\" ++ b

/-- The canonical per-root key computed inside `index_db_path`:
`os.path.normcase(os.path.normpath(root.strip()))`, then a trailing `os.sep`
is added to bare drive roots (`len(key) == 2 and key[1] == ':'`) so that
`'C:'` and `'C:\\'` agree.  (The `try/except` around this computation cannot
fire: none of the string operations raise on `str` input.) -/
def dbKey (root : String) : String :=
  let key := normcase (normpath (pyStrip root))
  if key ≠ "" ∧ ¬ strEndsWith key "\\" then
    if key.data.length = 2 ∧ key.data.get? 1 = some ':' then key ++ "\\" else key
  else key

/-- `index_db_path(root)`: per-root DB under
`<LOCALAPPDATA>\PartSearch\index\<sha1(key)[:12]>\index_db.sqlite`.
`localAppData` stands for the `%LOCALAPPDATA%` environment read; the
`os.makedirs` side effects do not touch the returned string. -/
def index_db_path (localAppData : String) (root : String) : String :=
  let idxDir := winJoin (winJoin localAppData "PartSearch") "index"
  let h : String := ⟨(sha1Hex (utf8Bytes (dbKey root))).data.take 12⟩
  winJoin (winJoin idxDir h) "index_db.sqlite"

/-! ## Query tokenization: `re.findall('"[^"]+"|\S+', q)`

The regex scanner tries, at each position, a double-quoted phrase with a
non-empty body first, else a maximal run of non-whitespace.  The recursion is
fuelled by the input length, which suffices because every step consumes at
least one character. -/

def tokenizeGo : Nat → List Char → List String
  | 0, _ => []
  | _, [] => []
  | fuel + 1, c :: rest =>
    if pyIsSpace c then tokenizeGo fuel rest
    else if c = '"' then
      match rest.takeWhile (· != '"'), rest.dropWhile (· != '"') with
      | b :: bs, _ :: rest' =>
        (⟨'"' :: ((b :: bs) ++ ['"'])⟩ : String) :: tokenizeGo fuel rest'
      | _, _ =>
        (⟨(c :: rest).takeWhile (fun x => !pyIsSpace x)⟩ : String)
          :: tokenizeGo fuel ((c :: rest).dropWhile (fun x => !pyIsSpace x))
    else
      (⟨(c :: rest).takeWhile (fun x => !pyIsSpace x)⟩ : String)
        :: tokenizeGo fuel ((c :: rest).dropWhile (fun x => !pyIsSpace x))

/-- All matches of `'"[^"]+"|\S+'` in `q`, in order. -/
def findTokens (q : String) : List String := tokenizeGo q.data.length q.data

/-! ## `fnmatch` glob matching (used by `CrawlProvider._match`) -/

/-- One unit of a translated glob pattern (`fnmatch.translate`):
`*`, `?`, a literal character, or a bracket class of ranges
(a literal class member is the range `(c, c)`). -/
inductive GlobItem where
  | star
  | anyChar
  | lit (c : Char)
  | cls (neg : Bool) (items : List (Char × Char))
deriving Repr, DecidableEq

/-- Class body into literal/range items: `a-b` is a range unless the `-`
is first or last, matching the regex class `fnmatch.translate` emits. -/
def parseClassItems : List Char → List (Char × Char)
  | a :: '-' :: b :: rest => (a, b) :: parseClassItems rest
  | a :: rest => (a, a) :: parseClassItems rest
  | [] => []

/-- After `[`: consume a leading `!` (class negation). -/
def stripBang : List Char → Bool × List Char
  | [] => (false, [])
  | c :: r => if c = '!' then (true, r) else (false, c :: r)

/-- After `[` and the optional `!`: a leading `]` is a literal class member. -/
def stripFirstBracket : List Char → List (Char × Char) × List Char
  | [] => ([], [])
  | c :: r => if c = ']' then ([((']' : Char), (']' : Char))], r) else ([], c :: r)

/-- Parse one bracket class starting just after the `[`; `none` when there is
no closing `]` (then the `[` is a literal, as in `fnmatch.translate`). -/
def parseBracket (rest : List Char) : Option (GlobItem × List Char) :=
  let neg := (stripBang rest).1
  let rest1 := (stripBang rest).2
  let first := (stripFirstBracket rest1).1
  let rest2 := (stripFirstBracket rest1).2
  match rest2.findIdx? (· = ']') with
  | none => none
  | some k => some (.cls neg (first ++ parseClassItems (rest2.take k)), rest2.drop (k + 1))

/-- Translate a glob pattern, mirroring `fnmatch.translate`'s scan: after
`[`, an optional `!` then an optional first `]` belong to the class body,
which extends to the next `]`; with no closing `]` the `[` is literal.
Fuelled by the pattern length, which suffices: every step consumes at least
the leading character (a parsed bracket class consumes the `[` and at least
the closing `]`). -/
def parseGlobGo : Nat → List Char → List GlobItem
  | _, [] => []
  | 0, _ :: _ => []
  | fuel + 1, '*' :: rest => .star :: parseGlobGo fuel rest
  | fuel + 1, '?' :: rest => .anyChar :: parseGlobGo fuel rest
  | fuel + 1, '[' :: rest =>
    match parseBracket rest with
    | none => .lit '[' :: parseGlobGo fuel rest
    | some (it, rem) => it :: parseGlobGo fuel rem
  | fuel + 1, c :: rest => .lit c :: parseGlobGo fuel rest

def parseGlob (l : List Char) : List GlobItem := parseGlobGo l.length l

/-- Character-in-class test. -/
def inClass (items : List (Char × Char)) (c : Char) : Bool :=
  items.any (fun p => p.1 ≤ c && c ≤ p.2)

/-- Match a translated glob pattern against a whole string
(`re.match(..., name)` with the translated, fully-anchored regex).
Fuelled by `ps.length + s.length`, which suffices: every recursive call
strictly decreases that sum. -/
def globMatchGo : Nat → List GlobItem → List Char → Bool
  | _, [], [] => true
  | _, [], _ :: _ => false
  | fuel + 1, .star :: ps, s =>
    globMatchGo fuel ps s ||
      (match s with
       | [] => false
       | _ :: s' => globMatchGo fuel (.star :: ps) s')
  | fuel + 1, .anyChar :: ps, _ :: s => globMatchGo fuel ps s
  | _, .anyChar :: _, [] => false
  | fuel + 1, .lit a :: ps, c :: s => a == c && globMatchGo fuel ps s
  | _, .lit _ :: _, [] => false
  | fuel + 1, .cls neg items :: ps, c :: s => (neg != inClass items c) && globMatchGo fuel ps s
  | _, .cls _ _ :: _, [] => false
  | 0, _ :: _, _ => false

def globMatch (ps : List GlobItem) (s : List Char) : Bool :=
  globMatchGo (ps.length + s.length) ps s

/-- `fnmatch.fnmatch(name, pat)`: `os.path.normcase` both (on Windows:
lower-case, `/ -> \`), then match the translated pattern. -/
def fnmatchWin (name pat : String) : Bool :=
  globMatch (parseGlob (normcase pat).data) (normcase name).data

/-- `CrawlProvider._match(name, query)`: tokens (quoted phrases kept whole,
quotes stripped) are ANDed; each must `fnmatch` the lower-cased name against
the lower-cased token with `"*"` appended — so a token constrains the START
of the name. -/
def CrawlProvider_match (name query : String) : Bool :=
  let toks := (findTokens query).filter (fun t => pyStrip t != "")
  if toks = [] then true
  else toks.all (fun t =>
    let t' := pyStripChars ['"'] t
    fnmatchWin (asciiLower name) (asciiLower (t' ++ "*")))

/-! ## SQLite `LIKE` (used by `IndexedProvider.search`) -/

/-- SQLite `LIKE` without `ESCAPE`: `%` matches any run, `_` one character,
literals compare ASCII-case-insensitively (SQLite's default `like()`).
Fuelled by `ps.length + s.length`, which suffices: every recursive call
strictly decreases that sum. -/
def likeMatchGo : Nat → List Char → List Char → Bool
  | _, [], [] => true
  | _, [], _ :: _ => false
  | fuel + 1, '%' :: ps, s =>
    likeMatchGo fuel ps s ||
      (match s with
       | [] => false
       | _ :: s' => likeMatchGo fuel ('%' :: ps) s')
  | fuel + 1, '_' :: ps, _ :: s => likeMatchGo fuel ps s
  | _, '_' :: _, [] => false
  | _, _ :: _, [] => false
  | fuel + 1, p :: ps, c :: s => (asciiLowerChar p == asciiLowerChar c) && likeMatchGo fuel ps s
  | 0, _ :: _, _ => false

def likeMatch (ps s : List Char) : Bool := likeMatchGo (ps.length + s.length) ps s

/-- The pattern `IndexedProvider.search` builds for one token:
`f"%{t.replace('*','%').replace('?','_')}%"` — a SUBSTRING pattern. -/
def likePattern (t : String) : String :=
  "%" ++ (⟨t.data.map (fun c => if c = '*' then '%' else if c = '?' then '_' else c)⟩ : String) ++ "%"

/-- The row predicate of `IndexedProvider.search`'s WHERE clause: every
token's pattern must LIKE-match the name or the full path (`AND` across
tokens; an empty token list selects every row). -/
def IndexedProvider_rowMatch (query name path : String) : Bool :=
  let tokens := ((findTokens query).filter (fun t => pyStrip t != "")).map (pyStripChars ['"'])
  tokens.all (fun t =>
    likeMatch (likePattern t).data name.data || likeMatch (likePattern t).data path.data)

/-! ## `SearchWorker.run`: fan-in merge, dedup, cap

A provider hit carries the fields the fan-in reads (`FileHit.path/is_dir/
size/mtime`).  `_hit_to_row` additionally derives display columns (name,
type text, size text, date text, location); the merge logic reads only the
source tag and the full path `r[6]`, so the embedded row carries the source
tag plus the hit fields. -/

structure Hit where
  path : String
  isDir : Bool
  size : Option Int
  mtime : Option ℚ
deriving Repr, DecidableEq

/-- A result row: source tag (column 5) plus the hit data (path = `r[6]`). -/
structure SRow where
  source : String
  path : String
  isDir : Bool
  size : Option Int
  mtime : Option ℚ
deriving Repr, DecidableEq

/-- `_hit_to_row(source, hit.path, hit.is_dir, hit.size, hit.mtime)`. -/
def hitToRow (source : String) (h : Hit) : SRow :=
  ⟨source, h.path, h.isDir, h.size, h.mtime⟩

/-- The dedup key of `add_row`:
`os.path.normcase(os.path.normpath(r[6])).rstrip("\\/")`. -/
def canonKey (p : String) : String :=
  pyRstripChars ['\\', '/'] (normcase (normpath p))

/-- `canonKey` of a row's path column. -/
def rowKey (r : SRow) : String := canonKey r.path

/-- The merge accumulator: `rows` (in arrival order) and the `seen` key set. -/
structure MergeSt where
  rows : List SRow
  seen : List String
deriving Repr, DecidableEq

/-- `add_row(r)`: drop the row if its canonical key was already seen. -/
def addRow (st : MergeSt) (r : SRow) : MergeSt × Bool :=
  if st.seen.contains (rowKey r) then (st, false)
  else ({ rows := st.rows ++ [r], seen := rowKey r :: st.seen }, true)

/-- One provider stage.  Stage 1's inline loop and `feed` have identical
rows/seen semantics (the `chunk` batches only stream UI updates): per row,
read the abort flag, `add_row`, and stop as soon as `len(rows) >= lim`. -/
def feedRows (lim : Nat) (abort : Bool) : List SRow → MergeSt → MergeSt
  | [], st => st
  | r :: rest, st =>
    if abort then st
    else
      let st' := (addRow st r).1
      if lim ≤ st'.rows.length then st'
      else feedRows lim abort rest st'

/-- State after stage 1 (`use_qi and not self._abort`: Quick Index first). -/
def stage1St (useQi abort : Bool) (lim : Nat) (qi : List SRow) : MergeSt :=
  if useQi ∧ ¬abort then feedRows lim abort qi ⟨[], []⟩ else ⟨[], []⟩

/-- State after stage 2 (`use_win and not self._abort and len(rows) < lim`). -/
def stage2St (useQi useWin abort : Bool) (lim : Nat) (qi win : List SRow) : MergeSt :=
  if useWin ∧ ¬abort ∧ (stage1St useQi abort lim qi).rows.length < lim then
    feedRows lim abort win (stage1St useQi abort lim qi)
  else stage1St useQi abort lim qi

/-- State after stage 3 (`use_crawl and not self._abort and len(rows) < lim`). -/
def stage3St (useQi useWin useCrawl abort : Bool) (lim : Nat) (qi win crawl : List SRow) : MergeSt :=
  if useCrawl ∧ ¬abort ∧ (stage2St useQi useWin abort lim qi win).rows.length < lim then
    feedRows lim abort crawl (stage2St useQi useWin abort lim qi win)
  else stage2St useQi useWin abort lim qi win

/-- `SearchWorker.run`: providers in priority order Quick Index → Windows →
Crawl, each adapter tagging its rows (`"Index"` / `"Windows"` / `"Crawl"`);
`lim = max(0, int(self.limit))`; the final result is `done.emit(rows[:lim])`.
The cooperative `_abort` flag is set (at most once) from another thread and
only ever truncates processing; a constant flag models "set before the run" /
"never set". -/
def SearchWorker_run (useQi useWin useCrawl abort : Bool)
    (qiHits winHits crawlHits : List Hit) (limit : Int) : List SRow :=
  (stage3St useQi useWin useCrawl abort limit.toNat
      (qiHits.map (hitToRow "Index"))
      (winHits.map (hitToRow "Windows"))
      (crawlHits.map (hitToRow "Crawl"))).rows.take limit.toNat

/-! ## `ntpath.split` / `basename` / `dirname` (CPython 3.11) -/

/-- `ntpath.split(p)`: split off the drive, then split the rest at the last
separator; the head keeps its trailing separators only when it is nothing
but separators. -/
def ntSplit (p : String) : String × String :=
  let (d, r) := splitdrive p
  let cs := r.data
  let tail := (cs.reverse.takeWhile (fun c => c != '\\' && c != '/')).reverse
  let head : String := ⟨cs.take (cs.length - tail.length)⟩
  let headR := pyRstripChars ['\\', '/'] head
  (d ++ (if headR = "" then head else headR), ⟨tail⟩)

/-- `os.path.basename`. -/
def ntBasename (p : String) : String := (ntSplit p).2

/-- `os.path.dirname`. -/
def ntDirname (p : String) : String := (ntSplit p).1

/-- `os.path.splitext(name)[1][1:].lower()`: the extension without its dot,
empty when the last dot only leads the (dot-free) base name
(`genericpath._splitext` with `sep='\\'`, `altsep='/'`, `extsep='.'`). -/
def rfindC (cs : List Char) (c : Char) : Int :=
  match (cs.reverse.findIdx? (· == c)) with
  | none => -1
  | some i => (cs.length : Int) - 1 - i

def extField (name : String) : String :=
  let cs := name.data
  let sepIndex := max (rfindC cs '\\') (rfindC cs '/')
  let dotIndex := rfindC cs '.'
  if sepIndex < dotIndex ∧
      ((cs.drop (sepIndex + 1).toNat).take (dotIndex - sepIndex - 1).toNat).any (· != '.') then
    asciiLower ⟨cs.drop (dotIndex.toNat + 1)⟩
  else ""

/-! ## `IndexWorker.run`: one scan pass per root

The per-root store is the SQLite `files` table created by
`ensure_quick_index_db` (unique index on `(root, path)`).  Python floats
(`time.time()`, `st_mtime`, `st_ctime`) are carried as rationals. -/

/-- Python `int(x)` on a (finite) float/rational: truncation toward zero. -/
def pyInt (t : ℚ) : ℤ := if 0 ≤ t then ⌊t⌋ else -⌊-t⌋

/-- One row of the `files` table.  Every row the indexer writes carries an
integer `pass_id`; no other code path inserts into `files`, so `NULL`
metadata can occur only in `size`/`mtime`/`ctime` (failed `stat`). -/
structure FileRow where
  root : String
  path : String
  name : String
  ext : String
  size : Option Int
  mtime : Option ℚ
  ctime : Option ℚ
  isDir : Bool
  parent : String
  passId : Int
deriving Repr, DecidableEq

/-- Writer-connection state for the `files` table: last committed table,
in-transaction table, and `total_changes`.  CPython's `sqlite3` rolls an
open transaction back on `close()` without `commit()`. -/
structure Conn where
  committed : List FileRow
  current : List FileRow
  totalChanges : Nat
deriving Repr, DecidableEq

def Conn.commit (c : Conn) : Conn := { c with committed := c.current }

/-- `(root, path)` key equality (the store's unique index). -/
def sameKey (x : FileRow) (root path : String) : Bool :=
  x.root == root && x.path == path

/-- `INSERT ... ON CONFLICT(root, path) DO UPDATE SET ...`: replace every
non-key field when the key exists, append otherwise.  SQLite counts the
touched row in `total_changes` in both branches — for `DO UPDATE` even when
the new values equal the stored ones (verified against sqlite3: an
identical re-upsert still increments `total_changes` by 1). -/
def Conn.upsert (c : Conn) (r : FileRow) : Conn :=
  if c.current.any (fun x => sameKey x r.root r.path) then
    { c with current := c.current.map (fun x => if sameKey x r.root r.path then r else x),
             totalChanges := c.totalChanges + 1 }
  else
    { c with current := c.current ++ [r], totalChanges := c.totalChanges + 1 }

/-- Mutable state of one pass: connection, counters, and the number of reads
of the `_stop` flag performed so far. -/
structure ScanSt where
  conn : Conn
  scanned : Nat
  updated : Nat
  stopReads : Nat
deriving Repr, DecidableEq

/-- The value of the k-th read of `getattr(self, "_stop", False)`.  The flag
is set at most once, from another thread; `stopAt = some n` makes the n-th
and every later read observe `True` (`none`: never set). -/
def stopNow (stopAt : Option Nat) (reads : Nat) : Bool :=
  match stopAt with
  | none => false
  | some n => decide (n ≤ reads)

/-- Record that one read of the `_stop` flag happened. -/
def noteRead (st : ScanSt) : ScanSt := { st with stopReads := st.stopReads + 1 }

/-- The `_upsert(...)` closure: upsert, and bump `updated_count` iff
`db.total_changes` grew across the statement. -/
def doUpsert (st : ScanSt) (r : FileRow) : ScanSt :=
  let before := st.conn.totalChanges
  let conn := st.conn.upsert r
  { st with
    conn := conn
    updated := if before < conn.totalChanges then st.updated + 1 else st.updated }

/-- The fixed deny-list of noise directory names. -/
def SKIP_NAMES : List String :=
  ["System Volume Information", "$RECYCLE.BIN", "$Recycle.Bin", "Windows",
   "Windows.old", "AppData", "node_modules", ".git", ".svn"]

def BATCH : Nat := 800

/-- `scanned_count += 1`, then the per-`BATCH` `db.commit()`
(`_emit_progress` only emits signals). -/
def bumpScanned (st : ScanSt) : ScanSt :=
  let st := { st with scanned := st.scanned + 1 }
  if st.scanned % BATCH = 0 then { st with conn := st.conn.commit } else st

/-- A filesystem entry as observed by `os.scandir`/`entry.stat`.
`stat = none` models `entry.stat(follow_symlinks=False)` raising (permission
denied / vanished / transient I-O); for directories `listOk = false` models
`os.scandir(path)` raising, which `_scan_dir` catches
(`except (PermissionError, FileNotFoundError, OSError): return`).
`entry.is_dir` is modelled as not raising (its bare `except` fallback is not
exercised in any claim's scenario). -/
inductive FsNode where
  | file (name : String) (stat : Option (Int × ℚ × ℚ))
  | dir (name : String) (stat : Option (ℚ × ℚ)) (listOk : Bool) (children : List FsNode)
deriving Repr

def FsNode.name : FsNode → String
  | .file n _ => n
  | .dir n _ _ _ => n

mutual

/-- The per-entry body of `_scan_dir`'s loop (after the stop and
`SKIP_NAMES` checks): stat, upsert with the current pass id, count, batch
commit, and for a directory recurse (`entry.path = os.path.join(d, name)`,
`parent = os.path.dirname(path)`). -/
def scanNode (stopAt : Option Nat) (passId : Int) (root d : String) :
    FsNode → ScanSt → ScanSt
  | .dir nm stat listOk kids, st =>
    let path := winJoin d nm
    let st := doUpsert st
      { root := root, path := path, name := nm, ext := "", size := none
        mtime := stat.map Prod.fst, ctime := stat.map Prod.snd
        isDir := true, parent := ntDirname path, passId := passId }
    let st := bumpScanned st
    if listOk then scanKids stopAt passId root path kids st else st
  | .file nm stat, st =>
    let path := winJoin d nm
    let st := doUpsert st
      { root := root, path := path, name := nm, ext := extField nm
        size := stat.map (fun s => s.1)
        mtime := stat.map (fun s => s.2.1), ctime := stat.map (fun s => s.2.2)
        isDir := false, parent := ntDirname path, passId := passId }
    bumpScanned st

/-- `_scan_dir`'s loop over one directory's listing: per entry read `_stop`
(return on `True`), skip `SKIP_NAMES`, else process the entry. -/
def scanKids (stopAt : Option Nat) (passId : Int) (root d : String) :
    List FsNode → ScanSt → ScanSt
  | [], st => st
  | e :: rest, st =>
    let stop := stopNow stopAt st.stopReads
    let st := noteRead st
    if stop then st
    else if SKIP_NAMES.contains e.name then scanKids stopAt passId root d rest st
    else scanKids stopAt passId root d rest (scanNode stopAt passId root d e st)

end

/-- The key/value `meta` area of one store, reduced to the only key the
modelled code reads or writes (`last_full_scan`). -/
structure MetaSt where
  lastFullScan : Option String
deriving Repr, DecidableEq

/-- Result of a Python call: normal return or a raised exception. -/
inductive PyRes (α : Type) where
  | ok (a : α)
  | exn (msg : String)
deriving Repr, DecidableEq

/-- The body of `set_last_indexed_now_for_root(db_path, root)`, reached only
when both arguments are supplied.  The meta table (per
`ensure_quick_index_db`) has both `val` and `value` columns, so both branches
run: with a stamp already present the first plain
`INSERT INTO meta(key,value) VALUES('last_full_scan', ...)` violates the
`key` primary key (`IntegrityError`); otherwise it succeeds in-transaction
but the second insert's SQL references the unquoted identifier `localtime`
(`OperationalError: no such column`), and the `with` block rolls the
transaction back and re-raises.  Either way the meta state is unchanged and
an exception propagates. -/
def set_last_indexed_body (meta : MetaSt) : MetaSt × PyRes Unit :=
  if meta.lastFullScan.isSome then
    (meta, .exn "IntegrityError: UNIQUE constraint failed: meta.key")
  else
    (meta, .exn "OperationalError: no such column: localtime")

/-- A Python-level call of `set_last_indexed_now_for_root` with a positional
argument list.  The signature is `(db_path: str, root: str)`; CPython raises
`TypeError` before the body runs when the argument count differs. -/
def set_last_indexed_call (args : List String) (meta : MetaSt) : MetaSt × PyRes Unit :=
  if args.length = 2 then set_last_indexed_body meta
  else (meta, .exn "TypeError: set_last_indexed_now_for_root() missing 1 required positional argument: 'root'")

/-- `get_last_indexed_text_for_root`: `"Never"` when the store file is
missing, the lookup raises, or no stamp row exists. -/
def get_last_indexed_text (dbExists : Bool) (meta : MetaSt) : String :=
  if dbExists then
    match meta.lastFullScan with
    | some v => v
    | none => "Never"
  else "Never"

/-- Result of one iteration of `IndexWorker.run`'s per-root loop. -/
structure RootResult where
  store : List FileRow
  meta : MetaSt
  scanned : Nat
  updated : Nat
  passId : Int
  completed : Bool
  stopReads : Nat
deriving Repr, DecidableEq

/-- The scan phase for one root: open the store (committed = current =
`initStore`), mint `current_pass = int(started)`, upsert the root's own row
(`os.stat(root)` may fail → `None` fields;
`root_name = os.path.basename(root.rstrip("\\/")) or root`), count it, then
`_scan_dir(root)` (skipped entirely when `os.scandir(root)` raises). -/
def scanPhase (stopAt : Option Nat) (stopReads0 : Nat) (root : String)
    (rootStat : Option (ℚ × ℚ)) (rootListOk : Bool) (children : List FsNode)
    (started : ℚ) (initStore : List FileRow) : ScanSt :=
  let currentPass := pyInt started
  let st : ScanSt := ⟨⟨initStore, initStore, 0⟩, 0, 0, stopReads0⟩
  let rootName0 := ntBasename (pyRstripChars ['\\', '/'] root)
  let st := doUpsert st
    { root := root, path := root
      name := if rootName0 = "" then root else rootName0
      ext := "", size := none
      mtime := rootStat.map Prod.fst, ctime := rootStat.map Prod.snd
      isDir := true, parent := ntDirname (pyRstripChars ['\\', '/'] root)
      passId := currentPass }
  let st := { st with scanned := st.scanned + 1 }
  if rootListOk then scanKids stopAt currentPass root root children st else st

/-- Everything `IndexWorker.run` does for one root (signal emissions have no
store effect): scan, then read `_stop` (`completed = not _stop`); when
completed, `DELETE FROM files WHERE pass_id <> current_pass` (note: `<>`,
and no root filter), `commit`, FTS rebuild (touches only `files_fts`),
`commit`, and the last-scan stamp attempt whose exception is swallowed
(`except Exception: pass`); finally `db.close()`, which rolls back any
uncommitted tail of a cancelled walk. -/
def runRoot (stopAt : Option Nat) (stopReads0 : Nat) (root : String)
    (rootStat : Option (ℚ × ℚ)) (rootListOk : Bool) (children : List FsNode)
    (started : ℚ) (initStore : List FileRow) (initMeta : MetaSt) : RootResult :=
  let currentPass := pyInt started
  let st0 := scanPhase stopAt stopReads0 root rootStat rootListOk children started initStore
  let stop := stopNow stopAt st0.stopReads
  let st := noteRead st0
  if stop then
    { store := st.conn.committed, meta := initMeta, scanned := st.scanned
      updated := st.updated, passId := currentPass, completed := false
      stopReads := st.stopReads }
  else
    let c1 : Conn := { st.conn with
      current := st.conn.current.filter (fun r => r.passId == currentPass) }
    let c2 := c1.commit
    let c3 := c2.commit
    let mp := set_last_indexed_call [root] initMeta
    { store := c3.committed, meta := mp.1, scanned := st.scanned
      updated := st.updated, passId := currentPass, completed := true
      stopReads := st.stopReads }

/-- One requested root: its path, what the filesystem presents, the store
and meta the per-root DB held before the pass, and the `time.time()` value
at the iteration's start. -/
structure RootJob where
  root : String
  rootStat : Option (ℚ × ℚ)
  rootListOk : Bool
  children : List FsNode
  started : ℚ
  initStore : List FileRow
  initMeta : MetaSt

/-- `IndexWorker.run`'s loop over `self.roots`: the loop head re-reads
`_stop` and breaks; each iteration runs one root's pass against its own
per-root store. -/
def runAll (stopAt : Option Nat) : List RootJob → Nat → List RootResult
  | [], _ => []
  | j :: rest, reads =>
    if stopNow stopAt reads then []
    else
      let res := runRoot stopAt (reads + 1) j.root j.rootStat j.rootListOk j.children
        j.started j.initStore j.initMeta
      res :: runAll stopAt rest res.stopReads

/-- Invariant of the merge accumulator: the kept rows have pairwise distinct
canonical keys, and every kept row's key is registered in `seen`. -/
def MergeInv (st : MergeSt) : Prop :=
  (st.rows.map rowKey).Nodup ∧ ∀ r ∈ st.rows, rowKey r ∈ st.seen

/-- Row `r`'s `(root, path)` key occurs in table `l`. -/
def hasKeyIn (l : List FileRow) (r : FileRow) : Prop :=
  ∃ x ∈ l, x.root = r.root ∧ x.path = r.path

/-- Every key of `A` occurs in both the in-transaction and the committed
table of `c`. -/
def keysSub (A : List FileRow) (c : Conn) : Prop :=
  ∀ r ∈ A, hasKeyIn c.current r ∧ hasKeyIn c.committed r

/-! ### Concrete scenario runs used by the claim theorems -/

/-- The C2 scenario's first pass: a completed scan of a two-file tree
(pass id 100) leaving N = 3 rows (root row + 2 files). -/
def c2firstPass : RootResult :=
  runRoot none 0 "C:\\R" (some (1, 2)) true
    [FsNode.file "a.txt" (some (3, 4, 5)), FsNode.file "b.pdf" (some (6, 7, 8))]
    100 [] ⟨none⟩

/-- The C2 scenario's second pass: `b.pdf` was deleted on disk and the
re-scan is cancelled (the `_stop` flag turns true at its second read, after
`a.txt` was processed but before finalization). -/
def c2cancelled : RootResult :=
  runRoot (some 1) 0 "C:\\R" (some (1, 2)) true
    [FsNode.file "a.txt" (some (3, 4, 5))] 200 c2firstPass.store ⟨none⟩

/-- The row the C3 scenario re-upserts. -/
def c3row : FileRow :=
  { root := "C:\\R", path := "C:\\R\\a.txt", name := "a.txt", ext := "txt"
    size := some 3, mtime := some 4, ctime := some 5, isDir := false
    parent := "C:\\R", passId := 100 }

/-- First pass over a one-file tree, from an empty store. -/
def c3res1 : RootResult :=
  runRoot none 0 "C:\\R" (some (1, 2)) true
    [FsNode.file "a.txt" (some (3, 4, 5))] 100 [] ⟨none⟩

/-- Second, identical pass (same tree, same start instant, so every upserted
row is byte-identical to the stored one). -/
def c3res2 : RootResult :=
  runRoot none 0 "C:\\R" (some (1, 2)) true
    [FsNode.file "a.txt" (some (3, 4, 5))] 100 c3res1.store ⟨none⟩

/-- The completed pass used for the C7 scenario: fresh store, no stamp. -/
def c7res : RootResult :=
  runRoot none 0 "C:\\R" (some (1, 2)) true
    [FsNode.file "a.txt" (some (3, 4, 5))] 100 [] ⟨none⟩

theorem upsert_committed (c : Conn) (r' : FileRow) :
    (c.upsert r').committed = c.committed := by
  unfold Conn.upsert
  split <;> rfl

theorem hasKeyIn_upsert_current {c : Conn} {r' r : FileRow}
    (h : hasKeyIn c.current r) : hasKeyIn (c.upsert r').current r := by
  obtain ⟨x, hx, h1, h2⟩ := h
  unfold Conn.upsert
  by_cases hc : c.current.any (fun y => sameKey y r'.root r'.path) = true
  · simp only [hc, if_true]
    by_cases hk : sameKey x r'.root r'.path = true
    · have h3 : x.root = r'.root ∧ x.path = r'.path := by
        unfold sameKey at hk
        simpa using hk
      refine ⟨r', ?_, ?_, ?_⟩
      · simpa [hk] using
          List.mem_map_of_mem (fun y => if sameKey y r'.root r'.path then r' else y) hx
      · rw [← h3.1]; exact h1
      · rw [← h3.2]; exact h2
    · refine ⟨x, ?_, h1, h2⟩
      simpa [hk] using
        List.mem_map_of_mem (fun y => if sameKey y r'.root r'.path then r' else y) hx
  · simp only [hc, if_false]
    exact ⟨x, List.mem_append_left _ hx, h1, h2⟩

theorem keysSub_upsert {A : List FileRow} {c : Conn} {r' : FileRow}
    (h : keysSub A c) : keysSub A (c.upsert r') := by
  intro r hr
  refine ⟨hasKeyIn_upsert_current (h r hr).1, ?_⟩
  rw [upsert_committed]
  exact (h r hr).2

theorem keysSub_commit {A : List FileRow} {c : Conn} (h : keysSub A c) :
    keysSub A c.commit :=
  fun r hr => ⟨(h r hr).1, (h r hr).1⟩

theorem keysSub_doUpsert {A : List FileRow} {st : ScanSt} {r' : FileRow}
    (h : keysSub A st.conn) : keysSub A (doUpsert st r').conn :=
  keysSub_upsert h

theorem keysSub_bumpScanned {A : List FileRow} {st : ScanSt}
    (h : keysSub A st.conn) : keysSub A (bumpScanned st).conn := by
  unfold bumpScanned
  by_cases hm : (st.scanned + 1) % BATCH = 0 <;> simp [hm]
  · exact keysSub_commit h
  · exact h

mutual

theorem keysSub_scanNode (A : List FileRow) (stopAt : Option Nat) (passId : Int)
    (root : String) (e : FsNode) : ∀ (d : String) (st : ScanSt),
    keysSub A st.conn → keysSub A (scanNode stopAt passId root d e st).conn := by
  intro d st h
  cases e with
  | dir nm stat listOk kids =>
    simp only [scanNode]
    by_cases hl : listOk = true <;> simp [hl]
    · exact keysSub_scanKids A stopAt passId root kids (winJoin d nm) _
        (keysSub_bumpScanned (keysSub_doUpsert h))
    · exact keysSub_bumpScanned (keysSub_doUpsert h)
  | file nm stat =>
    simp only [scanNode]
    exact keysSub_bumpScanned (keysSub_doUpsert h)

theorem keysSub_scanKids (A : List FileRow) (stopAt : Option Nat) (passId : Int)
    (root : String) (l : List FsNode) : ∀ (d : String) (st : ScanSt),
    keysSub A st.conn → keysSub A (scanKids stopAt passId root d l st).conn := by
  intro d st h
  cases l with
  | nil => simpa [scanKids] using h
  | cons e rest =>
    simp only [scanKids]
    by_cases hp : stopNow stopAt st.stopReads = true <;> simp [hp]
    · exact h
    · by_cases hskip : e.name ∈ SKIP_NAMES <;> simp [hskip]
      · exact keysSub_scanKids A stopAt passId root rest d (noteRead st) h
      · exact keysSub_scanKids A stopAt passId root rest d _
          (keysSub_scanNode A stopAt passId root e d (noteRead st) h)

end

theorem keysSub_scanPhase (A : List FileRow) (stopAt : Option Nat) (n : Nat)
    (root : String) (rs : Option (ℚ × ℚ)) (lo : Bool) (ch : List FsNode)
    (t : ℚ) (init : List FileRow) (h : ∀ r ∈ A, hasKeyIn init r) :
    keysSub A (scanPhase stopAt n root rs lo ch t init).conn := by
  have h0 : keysSub A (⟨⟨init, init, 0⟩, 0, 0, n⟩ : ScanSt).conn :=
    fun r hr => ⟨h r hr, h r hr⟩
  unfold scanPhase
  by_cases hl : lo = true <;> simp [hl]
  · exact keysSub_scanKids A stopAt _ root ch root _ (keysSub_doUpsert h0)
  · exact keysSub_doUpsert h0

/-- The minted pass id of a root pass is `int(started)`, on every branch. -/
theorem runRoot_passId (stopAt : Option Nat) (n : Nat) (root : String)
    (rs : Option (ℚ × ℚ)) (lo : Bool) (ch : List FsNode) (t : ℚ)
    (init : List FileRow) (m : MetaSt) :
    (runRoot stopAt n root rs lo ch t init m).passId = pyInt t := by
  unfold runRoot
  by_cases hp : stopNow stopAt (scanPhase stopAt n root rs lo ch t init).stopReads = true <;>
    simp [hp]

/-- On a completed pass (final `_stop` read false), the stored table is the
scan-final current table with every row of another pass deleted
(`DELETE FROM files WHERE pass_id <> current_pass`, then committed). -/
theorem runRoot_store_of_completed (stopAt : Option Nat) (n : Nat) (root : String)
    (rs : Option (ℚ × ℚ)) (lo : Bool) (ch : List FsNode) (t : ℚ)
    (init : List FileRow) (m : MetaSt)
    (h : (runRoot stopAt n root rs lo ch t init m).completed = true) :
    (runRoot stopAt n root rs lo ch t init m).store =
      (scanPhase stopAt n root rs lo ch t init).conn.current.filter
        (fun r => r.passId == pyInt t) := by
  unfold runRoot at h ⊢
  by_cases hp : stopNow stopAt (scanPhase stopAt n root rs lo ch t init).stopReads = true
  · simp [hp] at h
  · simp [hp, noteRead, Conn.commit]

/-- On a cancelled pass (final `_stop` read true), finalization is skipped
and `db.close()` leaves exactly the last committed table. -/
theorem runRoot_store_of_cancelled (stopAt : Option Nat) (n : Nat) (root : String)
    (rs : Option (ℚ × ℚ)) (lo : Bool) (ch : List FsNode) (t : ℚ)
    (init : List FileRow) (m : MetaSt)
    (h : (runRoot stopAt n root rs lo ch t init m).completed = false) :
    (runRoot stopAt n root rs lo ch t init m).store =
      (scanPhase stopAt n root rs lo ch t init).conn.committed := by
  unfold runRoot at h ⊢
  by_cases hp : stopNow stopAt (scanPhase stopAt n root rs lo ch t init).stopReads = true
  · simp [hp, noteRead]
  · simp [hp] at h

/-- C1: after a scan pass for a root completes without cancellation, every
`files` row remaining in that root's store carries `pass_id` equal to the
pass id that just finished (`int(started)`), and no row with an older
generation remains — the post-scan `DELETE FROM files WHERE pass_id <> ?`
removed it. -/
theorem c1_completed_pass_prunes_stale (stopAt : Option Nat) (n : Nat)
    (root : String) (rs : Option (ℚ × ℚ)) (lo : Bool) (ch : List FsNode)
    (t : ℚ) (init : List FileRow) (m : MetaSt)
    (h : (runRoot stopAt n root rs lo ch t init m).completed = true) :
    (∀ r ∈ (runRoot stopAt n root rs lo ch t init m).store, r.passId = pyInt t)
    ∧ (∀ r : FileRow, r.passId < pyInt t →
        r ∉ (runRoot stopAt n root rs lo ch t init m).store) := by
  have hs := runRoot_store_of_completed stopAt n root rs lo ch t init m h
  constructor
  · intro r hr
    rw [hs] at hr
    exact beq_iff_eq.mp (List.mem_filter.mp hr).2
  · intro r hlt hr
    rw [hs] at hr
    have := beq_iff_eq.mp (List.mem_filter.mp hr).2
    omega

/-- C1 witness: a concrete completed pass (pass id 100) over a one-file tree
starting from an empty store. -/
theorem c1_witness :
    (∀ r ∈ (runRoot none 0 "C:\\R" (some (1, 2)) true
        [FsNode.file "a.txt" (some (3, 4, 5))] 100 [] ⟨none⟩).store,
        r.passId = pyInt 100)
    ∧ (∀ r : FileRow, r.passId < pyInt 100 →
        r ∉ (runRoot none 0 "C:\\R" (some (1, 2)) true
          [FsNode.file "a.txt" (some (3, 4, 5))] 100 [] ⟨none⟩).store) :=
  c1_completed_pass_prunes_stale none 0 "C:\\R" (some (1, 2)) true
    [FsNode.file "a.txt" (some (3, 4, 5))] 100 [] ⟨none⟩ (by decide)



/-- C2: a scan pass cancelled before completion skips pruning and
finalization: every `(root, path)` key present in the store before the pass
is still present after it (rows carrying older generations included), and in
the concrete re-scan scenario a cancelled second pass over a root with 3
rows leaves exactly the 3 original rows. -/
theorem c2_cancelled_pass_preserves_rows (stopAt : Option Nat) (n : Nat)
    (root : String) (rs : Option (ℚ × ℚ)) (lo : Bool) (ch : List FsNode)
    (t : ℚ) (init : List FileRow) (m : MetaSt)
    (h : (runRoot stopAt n root rs lo ch t init m).completed = false) :
    (∀ r ∈ init, ∃ x ∈ (runRoot stopAt n root rs lo ch t init m).store,
        x.root = r.root ∧ x.path = r.path)
    ∧ c2cancelled.completed = false
    ∧ c2cancelled.store = c2firstPass.store
    ∧ c2firstPass.store.length = 3 := by
  refine ⟨?_, by decide, by decide, by decide⟩
  intro r hr
  have hks := keysSub_scanPhase init stopAt n root rs lo ch t init
    (fun r' hr' => ⟨r', hr', rfl, rfl⟩)
  have := (hks r hr).2
  rw [runRoot_store_of_cancelled stopAt n root rs lo ch t init m h]
  exact this

/-- C2 witness: in the concrete cancelled re-scan, the key of the
on-disk-deleted `b.pdf` row is still present in the store. -/
theorem c2_witness :
    ∃ x ∈ c2cancelled.store, x.root = "C:\\R" ∧ x.path = "C:\\R\\b.pdf" := by
  have h := c2_cancelled_pass_preserves_rows (some 1) 0 "C:\\R" (some (1, 2)) true
    [FsNode.file "a.txt" (some (3, 4, 5))] 200 c2firstPass.store ⟨none⟩ (by decide)
  have hb : (⟨"C:\\R", "C:\\R\\b.pdf", "b.pdf", "pdf", some 6, some 7, some 8,
      false, "C:\\R", 100⟩ : FileRow) ∈ c2firstPass.store := by decide
  simpa using h.1 _ hb

/-! ### Merge lemmas for C4/C5 -/

theorem addRow_seen_mono {st : MergeSt} {r : SRow} {k : String} (h : k ∈ st.seen) :
    k ∈ ((addRow st r).1).seen := by
  unfold addRow
  split
  · exact h
  · exact List.mem_cons_of_mem _ h

theorem addRow_key_in {st : MergeSt} {r : SRow} : rowKey r ∈ ((addRow st r).1).seen := by
  unfold addRow
  split
  · next hcon => simpa using hcon
  · exact List.mem_cons_self _ _

theorem addRow_rows_mem {st : MergeSt} {x r : SRow}
    (h : r ∈ ((addRow st x).1).rows) : r ∈ st.rows ∨ (r = x ∧ rowKey x ∉ st.seen) := by
  unfold addRow at h
  split at h
  · exact Or.inl h
  · next hcon =>
    rcases List.mem_append.mp h with h1 | h1
    · exact Or.inl h1
    · exact Or.inr ⟨List.mem_singleton.mp h1, by simpa using hcon⟩

theorem addRow_rows_len {st : MergeSt} {x : SRow} :
    st.rows.length ≤ ((addRow st x).1).rows.length := by
  unfold addRow
  split <;> simp

theorem addRow_inv {st : MergeSt} {r : SRow} (h : MergeInv st) :
    MergeInv ((addRow st r).1) := by
  unfold addRow
  split
  · exact h
  · next hcon =>
    constructor
    · rw [List.map_append]
      refine List.Nodup.append h.1 (List.nodup_singleton _) ?_
      intro a ha hb
      rcases List.mem_map.mp ha with ⟨r', hr', rfl⟩
      have h1 := h.2 r' hr'
      have h2 := List.mem_singleton.mp hb
      rw [h2] at h1
      exact hcon (by simpa using h1)
    · intro r' hr'
      rcases List.mem_append.mp hr' with h1 | h1
      · exact List.mem_cons_of_mem _ (h.2 r' h1)
      · rw [List.mem_singleton.mp h1]
        exact List.mem_cons_self _ _

theorem feedRows_seen_mono (lim : Nat) (ab : Bool) (xs : List SRow) :
    ∀ (st : MergeSt) {k : String}, k ∈ st.seen → k ∈ (feedRows lim ab xs st).seen := by
  induction xs with
  | nil => intro st k h; simpa [feedRows] using h
  | cons x rest ih =>
    intro st k h
    simp only [feedRows]
    by_cases hab : ab = true
    · simp [hab]
      exact h
    · rw [Bool.not_eq_true] at hab
      subst hab
      simp only [Bool.false_eq_true, if_false]
      by_cases hl : lim ≤ ((addRow st x).1).rows.length <;> simp [hl]
      · exact addRow_seen_mono h
      · exact ih _ (addRow_seen_mono h)

theorem feedRows_len_mono (lim : Nat) (ab : Bool) (xs : List SRow) :
    ∀ st : MergeSt, st.rows.length ≤ (feedRows lim ab xs st).rows.length := by
  induction xs with
  | nil => intro st; simp [feedRows]
  | cons x rest ih =>
    intro st
    simp only [feedRows]
    by_cases hab : ab = true
    · simp [hab]
    · rw [Bool.not_eq_true] at hab
      subst hab
      simp only [Bool.false_eq_true, if_false]
      by_cases hl : lim ≤ ((addRow st x).1).rows.length <;> simp [hl]
      · exact addRow_rows_len
      · exact le_trans addRow_rows_len (ih _)

theorem feedRows_rows_mem (lim : Nat) (ab : Bool) (xs : List SRow) {r : SRow} :
    ∀ st : MergeSt, r ∈ (feedRows lim ab xs st).rows →
      r ∈ st.rows ∨ (r ∈ xs ∧ rowKey r ∉ st.seen) := by
  induction xs with
  | nil => intro st h; exact Or.inl (by simpa [feedRows] using h)
  | cons x rest ih =>
    intro st h
    simp only [feedRows] at h
    by_cases hab : ab = true
    · simp [hab] at h
      exact Or.inl h
    · rw [Bool.not_eq_true] at hab
      subst hab
      simp only [Bool.false_eq_true, if_false] at h
      by_cases hl : lim ≤ ((addRow st x).1).rows.length
      · simp [hl] at h
        rcases addRow_rows_mem h with h1 | ⟨h1, h2⟩
        · exact Or.inl h1
        · exact Or.inr ⟨h1 ▸ List.mem_cons_self x rest, h1 ▸ h2⟩
      · simp [hl] at h
        rcases ih _ h with h1 | ⟨h2, h3⟩
        · rcases addRow_rows_mem h1 with h4 | ⟨h4, h5⟩
          · exact Or.inl h4
          · exact Or.inr ⟨h4 ▸ List.mem_cons_self x rest, h4 ▸ h5⟩
        · exact Or.inr ⟨List.mem_cons_of_mem _ h2, fun hm => h3 (addRow_seen_mono hm)⟩

theorem feedRows_consume (lim : Nat) (xs : List SRow) :
    ∀ st : MergeSt, (feedRows lim false xs st).rows.length < lim →
      ∀ x ∈ xs, rowKey x ∈ (feedRows lim false xs st).seen := by
  induction xs with
  | nil => intro st _ x hx; cases hx
  | cons y rest ih =>
    intro st h x hx
    simp only [feedRows, Bool.false_eq_true, if_false] at h ⊢
    by_cases hl : lim ≤ ((addRow st y).1).rows.length
    · simp [hl] at h
      omega
    · simp [hl] at h ⊢
      rcases List.mem_cons.mp hx with h1 | h1
      · exact feedRows_seen_mono lim false rest _ (h1 ▸ addRow_key_in)
      · exact ih _ h x h1

theorem feedRows_inv (lim : Nat) (ab : Bool) (xs : List SRow) :
    ∀ st : MergeSt, MergeInv st → MergeInv (feedRows lim ab xs st) := by
  induction xs with
  | nil => intro st h; simpa [feedRows] using h
  | cons x rest ih =>
    intro st h
    simp only [feedRows]
    by_cases hab : ab = true
    · simp [hab]
      exact h
    · rw [Bool.not_eq_true] at hab
      subst hab
      simp only [Bool.false_eq_true, if_false]
      by_cases hl : lim ≤ ((addRow st x).1).rows.length <;> simp [hl]
      · exact addRow_inv h
      · exact ih _ (addRow_inv h)

theorem mergeInv_empty : MergeInv ⟨[], []⟩ := by
  constructor <;> simp

theorem stage1_inv (u a : Bool) (lim : Nat) (qi : List SRow) :
    MergeInv (stage1St u a lim qi) := by
  unfold stage1St
  split
  · exact feedRows_inv _ _ _ _ mergeInv_empty
  · exact mergeInv_empty

theorem stage2_inv (u w a : Bool) (lim : Nat) (qi win : List SRow) :
    MergeInv (stage2St u w a lim qi win) := by
  unfold stage2St
  split
  · exact feedRows_inv _ _ _ _ (stage1_inv u a lim qi)
  · exact stage1_inv u a lim qi

theorem stage3_inv (u w cr a : Bool) (lim : Nat) (qi win crawl : List SRow) :
    MergeInv (stage3St u w cr a lim qi win crawl) := by
  unfold stage3St
  split
  · exact feedRows_inv _ _ _ _ (stage2_inv u w a lim qi win)
  · exact stage2_inv u w a lim qi win

theorem stage1_rows_mem {u a : Bool} {lim : Nat} {qi : List SRow} {r : SRow}
    (h : r ∈ (stage1St u a lim qi).rows) : r ∈ qi := by
  unfold stage1St at h
  split at h
  · rcases feedRows_rows_mem _ _ _ _ h with h1 | ⟨h1, _⟩
    · cases h1
    · exact h1
  · cases h

theorem stage2_rows_mem {u w a : Bool} {lim : Nat} {qi win : List SRow} {r : SRow}
    (h : r ∈ (stage2St u w a lim qi win).rows) : r ∈ qi ∨ r ∈ win := by
  unfold stage2St at h
  split at h
  · rcases feedRows_rows_mem _ _ _ _ h with h1 | ⟨h1, _⟩
    · exact Or.inl (stage1_rows_mem h1)
    · exact Or.inr h1
  · exact Or.inl (stage1_rows_mem h)

theorem stage2_seen_mono {u w a : Bool} {lim : Nat} {qi win : List SRow} {k : String}
    (h : k ∈ (stage1St u a lim qi).seen) : k ∈ (stage2St u w a lim qi win).seen := by
  unfold stage2St
  split
  · exact feedRows_seen_mono _ _ _ _ h
  · exact h

theorem stage2_len_mono (u w a : Bool) (lim : Nat) (qi win : List SRow) :
    (stage1St u a lim qi).rows.length ≤ (stage2St u w a lim qi win).rows.length := by
  unfold stage2St
  split
  · exact feedRows_len_mono _ _ _ _
  · exact le_rfl

theorem hitRows_source {s : String} {hits : List Hit} {r : SRow}
    (h : r ∈ hits.map (hitToRow s)) : r.source = s := by
  rcases List.mem_map.mp h with ⟨x, _, rfl⟩
  rfl

/-- When stage 1 runs (`useQi = true`, not aborted) and its result is below
the cap, every Quick-Index key is registered in its seen set. -/
theorem stage1_consume {u : Bool} {lim : Nat} {qi : List SRow} (hu : u = true)
    (h : (stage1St u false lim qi).rows.length < lim) :
    ∀ x ∈ qi, rowKey x ∈ (stage1St u false lim qi).seen := by
  have e : stage1St u false lim qi = feedRows lim false qi ⟨[], []⟩ := by
    unfold stage1St
    simp [hu]
  rw [e] at h ⊢
  exact feedRows_consume _ _ _ h

/-- When stage 2 runs (`useWin = true`, stage 1 below the cap) and its result
is below the cap, every Windows key is registered in its seen set. -/
theorem stage2_consume {u w : Bool} {lim : Nat} {qi win : List SRow} (hw : w = true)
    (hlen1 : (stage1St u false lim qi).rows.length < lim)
    (h : (stage2St u w false lim qi win).rows.length < lim) :
    ∀ x ∈ win, rowKey x ∈ (stage2St u w false lim qi win).seen := by
  have e : stage2St u w false lim qi win
      = feedRows lim false win (stage1St u false lim qi) := by
    unfold stage2St
    simp [hw, hlen1]
  rw [e] at h ⊢
  exact feedRows_consume _ _ _ h

/-- C4: the merged fan-in result contains at most one row per canonical path
(case-folded, separator-normalized, trailing separators stripped), and the
first provider in priority order wins: a merged row that did not come from
the Quick-Index provider has a canonical path no Quick-Index hit reported,
and a crawl row has a canonical path no Windows hit reported; paths
differing only in letter case or a trailing separator share one canonical
key. -/
theorem c4_dedup_first_provider_wins (useQi useWin useCrawl : Bool)
    (qiHits winHits crawlHits : List Hit) (limit : Int) :
    ((SearchWorker_run useQi useWin useCrawl false qiHits winHits crawlHits limit).map
        rowKey).Nodup
    ∧ (∀ r ∈ SearchWorker_run useQi useWin useCrawl false qiHits winHits crawlHits limit,
        r.source ≠ "Index" → useQi = true →
        ∀ hq ∈ qiHits, canonKey hq.path ≠ rowKey r)
    ∧ (∀ r ∈ SearchWorker_run useQi useWin useCrawl false qiHits winHits crawlHits limit,
        r.source = "Crawl" → useWin = true →
        ∀ hw ∈ winHits, canonKey hw.path ≠ rowKey r)
    ∧ canonKey "C:\\Foo\\BAR.txt" = canonKey "c:\\foo\\bar.txt\\" := by
  refine ⟨?_, ?_, ?_, by decide⟩
  · have h3 := stage3_inv useQi useWin useCrawl false limit.toNat
      (qiHits.map (hitToRow "Index")) (winHits.map (hitToRow "Windows"))
      (crawlHits.map (hitToRow "Crawl"))
    unfold SearchWorker_run
    exact h3.1.sublist ((List.take_sublist _ _).map rowKey)
  · intro r hr hsrc hu hq hhq heq
    have hr3 : r ∈ (stage3St useQi useWin useCrawl false limit.toNat
        (qiHits.map (hitToRow "Index")) (winHits.map (hitToRow "Windows"))
        (crawlHits.map (hitToRow "Crawl"))).rows :=
      List.take_subset _ _ hr
    have hqmem : hitToRow "Index" hq ∈ qiHits.map (hitToRow "Index") :=
      List.mem_map_of_mem _ hhq
    have hns1 : r ∉ (stage1St useQi false limit.toNat
        (qiHits.map (hitToRow "Index"))).rows := by
      intro hmem
      exact hsrc (hitRows_source (stage1_rows_mem hmem))
    unfold stage3St at hr3
    split at hr3
    · next hg3 =>
      have hlen2 : (stage2St useQi useWin false limit.toNat
          (qiHits.map (hitToRow "Index")) (winHits.map (hitToRow "Windows"))).rows.length
          < limit.toNat := hg3.2.2
      have hlen1 : (stage1St useQi false limit.toNat
          (qiHits.map (hitToRow "Index"))).rows.length < limit.toNat :=
        lt_of_le_of_lt (stage2_len_mono useQi useWin false limit.toNat
          (qiHits.map (hitToRow "Index")) (winHits.map (hitToRow "Windows"))) hlen2
      have hqseen1 : canonKey hq.path ∈ (stage1St useQi false limit.toNat
          (qiHits.map (hitToRow "Index"))).seen :=
        stage1_consume hu hlen1 (hitToRow "Index" hq) hqmem
      rcases feedRows_rows_mem _ _ _ _ hr3 with h1 | ⟨_, h2⟩
      · unfold stage2St at h1
        split at h1
        · rcases feedRows_rows_mem _ _ _ _ h1 with h4 | ⟨_, h5⟩
          · exact hns1 h4
          · exact h5 (heq ▸ hqseen1)
        · exact hns1 h1
      · exact h2 (heq ▸ stage2_seen_mono hqseen1)
    · next hg3 =>
      unfold stage2St at hr3
      split at hr3
      · next hg2 =>
        have hlen1 : (stage1St useQi false limit.toNat
            (qiHits.map (hitToRow "Index"))).rows.length < limit.toNat := hg2.2.2
        have hqseen1 : canonKey hq.path ∈ (stage1St useQi false limit.toNat
            (qiHits.map (hitToRow "Index"))).seen :=
          stage1_consume hu hlen1 (hitToRow "Index" hq) hqmem
        rcases feedRows_rows_mem _ _ _ _ hr3 with h4 | ⟨_, h5⟩
        · exact hns1 h4
        · exact h5 (heq ▸ hqseen1)
      · exact hns1 hr3
  · intro r hr hsrc hw hwit hhw heq
    have hr3 : r ∈ (stage3St useQi useWin useCrawl false limit.toNat
        (qiHits.map (hitToRow "Index")) (winHits.map (hitToRow "Windows"))
        (crawlHits.map (hitToRow "Crawl"))).rows :=
      List.take_subset _ _ hr
    have hwmem : hitToRow "Windows" hwit ∈ winHits.map (hitToRow "Windows") :=
      List.mem_map_of_mem _ hhw
    have hns2 : r ∉ (stage2St useQi useWin false limit.toNat
        (qiHits.map (hitToRow "Index")) (winHits.map (hitToRow "Windows"))).rows := by
      intro hmem
      rcases stage2_rows_mem hmem with h1 | h1
      · have hs := hitRows_source h1
        rw [hsrc] at hs
        exact absurd hs (by decide)
      · have hs := hitRows_source h1
        rw [hsrc] at hs
        exact absurd hs (by decide)
    unfold stage3St at hr3
    split at hr3
    · next hg3 =>
      have hlen2 : (stage2St useQi useWin false limit.toNat
          (qiHits.map (hitToRow "Index")) (winHits.map (hitToRow "Windows"))).rows.length
          < limit.toNat := hg3.2.2
      have hlen1 : (stage1St useQi false limit.toNat
          (qiHits.map (hitToRow "Index"))).rows.length < limit.toNat :=
        lt_of_le_of_lt (stage2_len_mono useQi useWin false limit.toNat
          (qiHits.map (hitToRow "Index")) (winHits.map (hitToRow "Windows"))) hlen2
      have hwseen : canonKey hwit.path ∈ (stage2St useQi useWin false limit.toNat
          (qiHits.map (hitToRow "Index")) (winHits.map (hitToRow "Windows"))).seen :=
        stage2_consume hw hlen1 hlen2 (hitToRow "Windows" hwit) hwmem
      rcases feedRows_rows_mem _ _ _ _ hr3 with h1 | ⟨_, h2⟩
      · exact hns2 h1
      · exact h2 (heq ▸ hwseen)
    · exact hns2 hr3

/-- C4 witness: in a concrete two-provider run, a Windows-sourced merged row
is guaranteed a canonical path distinct from every Quick-Index hit. -/
theorem c4_witness :
    canonKey "C:\\X\\A.txt" ≠ rowKey (hitToRow "Windows" ⟨"C:\\X\\B.txt", false, some 2, none⟩) := by
  have h := c4_dedup_first_provider_wins true true false
    [⟨"C:\\X\\A.txt", false, some 1, none⟩] [⟨"C:\\X\\B.txt", false, some 2, none⟩] [] 10
  exact h.2.1 (hitToRow "Windows" ⟨"C:\\X\\B.txt", false, some 2, none⟩)
    (by decide) (by decide) rfl ⟨"C:\\X\\A.txt", false, some 1, none⟩ (by decide)

/-- C5: For every requested result cap K and every combination of provider
outputs (and any abort-flag state), the merged search result delivered to the
caller (`done.emit(rows[:lim])` with `lim = max(0, K)`) contains at most K
hits, even when the providers combined would produce more than K. -/
theorem c5_cap_enforcement (useQi useWin useCrawl abort : Bool)
    (qiHits winHits crawlHits : List Hit) (limit : Int) :
    (SearchWorker_run useQi useWin useCrawl abort qiHits winHits crawlHits limit).length
      ≤ limit.toNat := by
  unfold SearchWorker_run
  exact List.length_take_le _ _

/-- C6 counterexample: the claim states that under the pattern-matching
backends the query `motor*` does not match the entry named
`housingmotor.pdf`; but under `IndexedProvider.search` (one of the two cited
pattern-matching backends) the token becomes the substring pattern
`%motor%%`, which DOES match that entry. -/
theorem c6_counterexample :
    IndexedProvider_rowMatch "motor*" "housingmotor.pdf" "C:\\scans\\housingmotor.pdf" = true := by
  decide

/-- C6 (amended): under the live-crawl pattern backend
(`CrawlProvider._match`) a token constrains the START of the name (`motor*`
matches `motorhousing.sldprt` but not `housingmotor.pdf`), while under the
indexed pattern backend (`IndexedProvider.search`) each token is a substring
pattern against name or path, so `motor*` matches both entries; in both
backends tokens are matched case-insensitively and multiple tokens are
ANDed. -/
theorem c6_amended_wildcard_semantics :
    CrawlProvider_match "motorhousing.sldprt" "motor*" = true
    ∧ CrawlProvider_match "housingmotor.pdf" "motor*" = false
    ∧ CrawlProvider_match "MotorHousing.SLDPRT" "mOtOr*" = true
    ∧ CrawlProvider_match "motorhousing.sldprt" "motor* *housing*" = true
    ∧ CrawlProvider_match "motorhousing.sldprt" "motor* *gear*" = false
    ∧ IndexedProvider_rowMatch "motor*" "motorhousing.sldprt" "C:\\scans\\motorhousing.sldprt" = true
    ∧ IndexedProvider_rowMatch "motor*" "housingmotor.pdf" "C:\\scans\\housingmotor.pdf" = true
    ∧ IndexedProvider_rowMatch "MOTOR*" "housingmotor.pdf" "C:\\scans\\housingmotor.pdf" = true
    ∧ IndexedProvider_rowMatch "motor housing" "motorhousing.sldprt" "C:\\scans\\motorhousing.sldprt" = true
    ∧ IndexedProvider_rowMatch "motor gear" "motorhousing.sldprt" "C:\\scans\\motorhousing.sldprt" = false := by
  decide


/-- C3 (code bug): the claim (and the code's own `before = db.total_changes`
comparison) intends that re-upserting identical content not bump the
reported update metric; but SQLite counts an `ON CONFLICT DO UPDATE` row in
`total_changes` even when the assigned values equal the stored ones, so the
comparison is always true: a single identical re-upsert bumps
`updated_count`, and a second scan of an unchanged tree reports
`updatedCount = scannedCount = 2` instead of 0 (row counts do stay
identical). -/
theorem c3_identical_reupsert_still_counts :
    (doUpsert ⟨⟨[c3row], [c3row], 0⟩, 1, 0, 0⟩ c3row).updated = 1
    ∧ c3res2.store = c3res1.store
    ∧ c3res1.updated = 2
    ∧ c3res2.updated = 2
    ∧ c3res2.scanned = 2 := by
  decide


/-- C7 (code bug): `IndexWorker.run` calls
`set_last_indexed_now_for_root(root)` with one argument while the function's
signature is `(db_path, root)`, so the call raises `TypeError` before any
write and the surrounding `except Exception: pass` swallows it: after a
normally completed pass the store's `last_full_scan` stamp is unchanged and
a subsequent read still returns "Never". -/
theorem c7_last_scan_never_stamped :
    (set_last_indexed_call ["C:\\R"] ⟨none⟩).2 =
      PyRes.exn "TypeError: set_last_indexed_now_for_root() missing 1 required positional argument: 'root'"
    ∧ c7res.completed = true
    ∧ c7res.meta = ⟨none⟩
    ∧ get_last_indexed_text true c7res.meta = "Never" := by
  decide


/-- C9 counterexample: one `IndexWorker.run` invocation over two distinct
roots whose iterations start 0.7 s apart (within the same wall-clock second)
mints the SAME `scanGeneration` (`int(time.time())`) for both — the
generation is reused across roots and across scans. -/
theorem c9_counterexample :
    (runAll none
      [⟨"C:\\A", some (1, 2), true, [], mkRat 502 5, [], ⟨none⟩⟩,
       ⟨"C:\\B", some (1, 2), true, [], mkRat 1009 10, [], ⟨none⟩⟩] 0).map RootResult.passId
      = [100, 100]
    ∧ ("C:\\A" : String) ≠ "C:\\B"
    ∧ mkRat 502 5 ≠ mkRat 1009 10 := by
  decide

/-- C9 (amended): the scan generation is the integer part of the pass's
wall-clock start time, so generations are distinct and strictly increasing
whenever a later pass starts at least one full second after an earlier one
(with a non-negative clock); within the same second (or after a clock step
back) a generation can repeat, as the counterexample shows. -/
theorem c9_amended_generation_monotone (s1 s2 : Option Nat) (n1 n2 : Nat)
    (r1 r2 : String) (rs1 rs2 : Option (ℚ × ℚ)) (lo1 lo2 : Bool)
    (ch1 ch2 : List FsNode) (t1 t2 : ℚ) (i1 i2 : List FileRow)
    (m1 m2 : MetaSt) (h0 : 0 ≤ t1) (h1 : t1 + 1 ≤ t2) :
    (runRoot s1 n1 r1 rs1 lo1 ch1 t1 i1 m1).passId <
      (runRoot s2 n2 r2 rs2 lo2 ch2 t2 i2 m2).passId := by
  rw [runRoot_passId, runRoot_passId]
  have h2 : (0 : ℚ) ≤ t2 := le_trans (le_trans h0 (by linarith)) le_rfl
  unfold pyInt
  rw [if_pos h0, if_pos h2]
  have hf : ⌊t1⌋ + 1 ≤ ⌊t2⌋ := by
    have := Int.floor_le_floor h1
    rwa [Int.floor_add_one] at this
  omega

/-- C9 witness: two passes starting at t = 5 s and t = 7 s get strictly
increasing generations. -/
theorem c9_amended_witness :
    (runRoot none 0 "C:\\A" none true [] 5 [] ⟨none⟩).passId <
      (runRoot none 0 "C:\\B" none true [] 7 [] ⟨none⟩).passId :=
  c9_amended_generation_monotone none none 0 0 "C:\\A" "C:\\B" none none
    true true [] [] 5 7 [] [] ⟨none⟩ ⟨none⟩ (by norm_num) (by norm_num)

/-- C10: `index_db_path` is canonicalizing and deterministic: any two root
spellings with the same case-folded, separator-normalized form
(`normcase(normpath(strip(...)))`) get the same store path, and drive roots
written with or without the trailing separator (`C:` vs `C:\`), as well as
mixed case/separator spellings, share one store. -/
theorem c10_store_path_canonical (lad a b : String)
    (h : normcase (normpath (pyStrip a)) = normcase (normpath (pyStrip b))) :
    index_db_path lad a = index_db_path lad b
    ∧ index_db_path lad "C:\\Foo\\Bar" = index_db_path lad "c:/foo//bar/"
    ∧ index_db_path lad "C:" = index_db_path lad "C:\\"
    ∧ index_db_path lad " C:\\data\\Proj " = index_db_path lad "c:\\DATA\\proj" := by
  have key_eq : dbKey a = dbKey b := by
    unfold dbKey
    rw [h]
  refine ⟨?_, ?_, ?_, ?_⟩
  · unfold index_db_path
    rw [key_eq]
  · unfold index_db_path
    rw [show dbKey "C:\\Foo\\Bar" = dbKey "c:/foo//bar/" from by decide]
  · unfold index_db_path
    rw [show dbKey "C:" = dbKey "C:\\" from by decide]
  · unfold index_db_path
    rw [show dbKey " C:\\data\\Proj " = dbKey "c:\\DATA\\proj" from by decide]

/-- C10 witness: two spellings of one directory share a single store. -/
theorem c10_witness :
    index_db_path "L" "C:\\Data" = index_db_path "L" "c:/data" :=
  (c10_store_path_canonical "L" "C:\\Data" "c:/data" (by decide)).1

end TST
